import Mathlib

/-!
Shallow embedding of the eddsa package (Schnorr-style signatures over a
twisted Edwards curve): `GenerateKey`, `PrivateKey.Sign` and `Verify`,
translated from the Go source.  The external curve library
(`twistededwards` from gurvy) and the hash functions (`blake2b.Sum512`,
the caller-supplied `hash.Hash`) are collaborators outside this
repository; they are modelled as parameters: an abstract `CurveModel`
record of the operations the code calls, and plain functions for the
hashes.  Bytes are modelled as natural numbers (always < 256 in the
source); machine-independent big integers (`math/big`) are `Nat`.
-/

namespace Eddsa

/-- The error value `errNotOnCurve = errors.New("point not on curve")`. -/
def errNotOnCurve : String := "point not on curve"

/-- Size of a field element / scalar in bytes (`sizeFr = 32`). -/
def sizeFr : Nat := 32

/-- `sizePublicKey = 2 * sizeFr`. -/
def sizePublicKey : Nat := 2 * sizeFr

/-- `sizeSignature = 3 * sizeFr`. -/
def sizeSignature : Nat := 3 * sizeFr

/-- `sizePrivateKey = 3*sizeFr + 32`. -/
def sizePrivateKey : Nat := 3 * sizeFr + 32

/-- `big.Int.SetBytes`: interpret a byte slice as a non-negative
big-endian integer. -/
def beBytesToNat (l : List Nat) : Nat :=
  l.foldl (fun acc b => acc * 256 + b) 0

/-- Fuel-indexed helper for `big.Int.Bytes`: base-256 digits,
most significant first, no leading zeros (empty for 0). -/
def natToMinBEAux : Nat → Nat → List Nat
  | 0, _ => []
  | fuel+1, n => if n = 0 then [] else natToMinBEAux fuel (n / 256) ++ [n % 256]

/-- `big.Int.Bytes`: minimal big-endian byte encoding of a non-negative
integer (empty list for 0). -/
def natToMinBE (n : Nat) : List Nat :=
  natToMinBEAux n n

/-- Fuel-indexed translation of the in-place swap loop
`for i, j := ...; i < j; i, j = i+1, j-1 { h[i], h[j] = h[j], h[i] }`. -/
def swapLoopAux : Nat → List Nat → Nat → Nat → List Nat
  | 0, h, _, _ => h
  | fuel+1, h, i, j =>
    if i < j then
      swapLoopAux fuel ((h.set i (h.getD j 0)).set j (h.getD i 0)) (i+1) (j-1)
    else h

/-- The swap loop starting at indices `i`, `j`; each iteration narrows
`j - i` by 2, so `j - i` steps of fuel always suffice. -/
def swapLoop (h : List Nat) (i j : Nat) : List Nat :=
  swapLoopAux (j - i) h i j

/-- Model of the external twisted Edwards curve collaborator
(`twistededwards.PointAffine` plus the curve parameters): the operations
the eddsa code calls on it.  `xBytes`/`yBytes` are the 32-byte field
element encodings `X.Bytes()`/`Y.Bytes()`; `pointEq p q` is the
coordinate-wise test `p.X.Equal(&q.X) && p.Y.Equal(&q.Y)`; `zeroPoint`
is Go's zero value of `PointAffine`. -/
structure CurveModel where
  P : Type
  base : P
  order : Nat
  cofactor : Nat
  add : P → P → P
  smul : Nat → P → P
  isOnCurve : P → Bool
  pointEq : P → P → Bool
  xBytes : P → List Nat
  yBytes : P → List Nat
  zeroPoint : P

/-- Model of the caller-supplied `hash.Hash`: after `Reset`, writing a
byte string either fails with an error (`writeErr data = some e`,
mirroring `Write` returning `err`) or succeeds, in which case
`Sum(nil)` returns `sum data`.  A deterministic hash is a function of
the bytes written since the reset. -/
structure HashFn where
  writeErr : List Nat → Option String
  sum : List Nat → List Nat

/-- `PublicKey`: wraps the curve point `A`. -/
structure PublicKey (C : CurveModel) where
  A : C.P

/-- `PrivateKey`: embedded public key, the 32-byte secret scalar
(big-endian) and the 32-byte auxiliary random source. -/
structure PrivateKey (C : CurveModel) where
  pubKey : PublicKey C
  scalar : List Nat
  randSrc : List Nat

/-- `Signature`: commitment point `R` and 32-byte scalar `S`. -/
structure Signature (C : CurveModel) where
  R : C.P
  S : List Nat

/-- Go's zero value `Signature{}`: zero-valued point and 32 zero bytes. -/
def zeroSignature (C : CurveModel) : Signature C :=
  { R := C.zeroPoint, S := List.replicate sizeFr 0 }

/-- `GenerateKey(seed)`: blake2b-512 the seed, copy the upper half into
`randSrc`, clamp `h[0]` and `h[31]`, run the reversal loop
(`for i, j := 0, sizeFr; i < j; ...` — note the start value `sizeFr`),
take the first 32 bytes as the scalar, and compute `A = scalar·Base`. -/
def GenerateKey (C : CurveModel) (blake : List Nat → List Nat) (seed : List Nat) :
    PublicKey C × PrivateKey C :=
  let h := blake seed
  let randSrc := (h.drop 32).take 32
  let h := h.set 0 (h.getD 0 0 &&& 0xF8)
  let h := h.set 31 ((h.getD 31 0 &&& 0x7F) ||| 0x40)
  let h := swapLoop h 0 sizeFr
  let scalar := h.take sizeFr
  let A := C.smul (beBytesToNat scalar) C.base
  let pub : PublicKey C := { A := A }
  (pub, { pubKey := pub, scalar := scalar, randSrc := randSrc })

/-- The blinding scalar of `Sign`: `SetBytes(blake2b.Sum512(randSrc || message)[:sizeFr])`. -/
def signNonce (blake : List Nat → List Nat) (C : CurveModel) (priv : PrivateKey C)
    (msg : List Nat) : Nat :=
  beBytesToNat ((blake (priv.randSrc ++ msg)).take sizeFr)

/-- The challenge pre-image `dataToHash = R.X || R.Y || A.X || A.Y || message`
(the coordinate encodings are 32 bytes each, so the fixed-offset copies
in the source amount to this concatenation). -/
def challengeData (C : CurveModel) (R A : C.P) (msg : List Nat) : List Nat :=
  C.xBytes R ++ C.yBytes R ++ C.xBytes A ++ C.yBytes A ++ msg

/-- Lines 172–177 of the source: `sb := bs.Bytes()`, left-pad with zero
bytes to `sizeFr` when shorter, then `copy(res.S[:], sb[:])` (which
keeps the first `sizeFr` bytes). -/
def sEncode (s : Nat) : List Nat :=
  let sb := natToMinBE s
  let sb := if sb.length < sizeFr then List.replicate (sizeFr - sb.length) 0 ++ sb else sb
  sb.take sizeFr

/-- `PrivateKey.Sign(message, hFunc)`: derive the blinding scalar `r`,
compute `R = r·Base` (error if off-curve), hash
`R.X || R.Y || A.X || A.Y || message` with the supplied hash (error
propagated), and return `R` with `S = (c·x + r) mod Order` encoded on
32 bytes. -/
def Sign (C : CurveModel) (blake : List Nat → List Nat) (hF : HashFn)
    (priv : PrivateKey C) (msg : List Nat) : Signature C × Option String :=
  let r := signNonce blake C priv msg
  let R := C.smul r C.base
  if C.isOnCurve R then
    let data := challengeData C R priv.pubKey.A msg
    match hF.writeErr data with
    | some e => (zeroSignature C, some e)
    | none =>
      let c := beBytesToNat (hF.sum data)
      let x := beBytesToNat priv.scalar
      let s := (c * x + r) % C.order
      ({ R := R, S := sEncode s }, none)
  else (zeroSignature C, some errNotOnCurve)

/-- The verifier's left-hand side: `cofactor · (S · Base)` with `S`
parsed from the signature as a big-endian integer. -/
def verifyLhs (C : CurveModel) (sig : Signature C) : C.P :=
  C.smul C.cofactor (C.smul (beBytesToNat sig.S) C.base)

/-- The verifier's right-hand side as the source computes it:
`cofactor · (c·A + R)`. -/
def verifyRhs (C : CurveModel) (pub : PublicKey C) (sig : Signature C) (c : Nat) : C.P :=
  C.smul C.cofactor (C.add (C.smul c pub.A) sig.R)

/-- `Verify(sig, message, pub, hFunc)` returning Go's `(bool, error)`
pair: on-curve check of `A`, recompute the challenge, on-curve checks
of both sides, and coordinate-wise comparison of the two sides. -/
def Verify (C : CurveModel) (hF : HashFn) (sig : Signature C) (msg : List Nat)
    (pub : PublicKey C) : Bool × Option String :=
  if C.isOnCurve pub.A then
    let data := challengeData C sig.R pub.A msg
    match hF.writeErr data with
    | some e => (false, some e)
    | none =>
      let c := beBytesToNat (hF.sum data)
      let lhs := verifyLhs C sig
      if C.isOnCurve lhs then
        let rhs := verifyRhs C pub sig c
        if C.isOnCurve rhs then
          if C.pointEq lhs rhs then (true, none) else (false, none)
        else (false, some errNotOnCurve)
      else (false, some errNotOnCurve)
  else (false, some errNotOnCurve)

/-- The algebraic facts the eddsa code relies on from the curve
collaborator: scalar multiplication is a monoid action distributing
over addition, the base point has order dividing `order`, points built
from the base are on the curve, and coordinate-wise equality is
reflexive.  `order_pos`/`order_le` record that the group order is a
positive 256-bit-or-smaller number, as for the actual curve. -/
structure CurveLaws (C : CurveModel) : Prop where
  smul_add : ∀ a b p, C.smul (a + b) p = C.add (C.smul a p) (C.smul b p)
  smul_mul : ∀ a b p, C.smul (a * b) p = C.smul a (C.smul b p)
  smul_mod_base : ∀ a, C.smul (a % C.order) C.base = C.smul a C.base
  onCurve_smul_base : ∀ k, C.isOnCurve (C.smul k C.base) = true
  pointEq_refl : ∀ p, C.pointEq p p = true
  add_comm : ∀ p q, C.add p q = C.add q p
  order_pos : 0 < C.order
  order_le : C.order ≤ 256 ^ 32

/-- Concrete executable curve models used to exercise the code: the
point group is `Nat` with addition modulo 15, base 1 (so every point is
a multiple of the base), and a configurable on-curve predicate. -/
@[reducible] def demoBase (onC : Nat → Bool) : CurveModel where
  P := Nat
  base := 1
  order := 15
  cofactor := 1
  add := fun p q => (p + q) % 15
  smul := fun k p => (k * p) % 15
  isOnCurve := onC
  pointEq := fun p q => p == q
  xBytes := fun p => [p % 256]
  yBytes := fun p => [p % 256]
  zeroPoint := 0

/-- Demo curve on which every point passes the on-curve test. -/
@[reducible] def demoCurve : CurveModel := demoBase (fun _ => true)

/-- Demo curve on which no point passes the on-curve test. -/
@[reducible] def demoCurveOff : CurveModel := demoBase (fun _ => false)

/-- Demo curve on which only the point 2 is on-curve. -/
@[reducible] def demoCurveMix : CurveModel := demoBase (fun p => p == 2)

/-- Demo curve on which only the points 2 and 5 are on-curve. -/
@[reducible] def demoCurveMix2 : CurveModel := demoBase (fun p => p == 2 || p == 5)

/-- A concrete stand-in for blake2b-512: digest bytes 0,…,63. -/
def blake0 : List Nat → List Nat := fun _ => List.range 64

/-- A concrete caller-supplied hash that never fails and returns the
one-byte digest 7. -/
def hF0 : HashFn := { writeErr := fun _ => none, sum := fun _ => [7] }

/-- A concrete caller-supplied hash whose writes always fail. -/
def hFBad : HashFn := { writeErr := fun _ => some "closed", sum := fun _ => [] }

/-- The all-zero 32-byte seed. -/
def seed0 : List Nat := List.replicate 32 0

/-- A concrete message. -/
def msg0 : List Nat := [1, 2, 3]

/-- The secret scalar as the specification describes it (comparison
definition following the spec's words, §4.1 steps 3–4): clamp the lower
32 bytes of the digest and reverse the byte order of those 32 bytes. -/
def scalarPerSpec (h : List Nat) : List Nat :=
  let lower := h.take 32
  let lower := lower.set 0 (lower.getD 0 0 &&& 0xF8)
  let lower := lower.set 31 ((lower.getD 31 0 &&& 0x7F) ||| 0x40)
  lower.reverse

/-- Appending one byte multiplies the big-endian value by 256 and adds it. -/
theorem beBytesToNat_append_singleton (l : List Nat) (b : Nat) :
    beBytesToNat (l ++ [b]) = beBytesToNat l * 256 + b := by
  simp [beBytesToNat, List.foldl_append]

/-- Leading zero bytes do not change the big-endian value. -/
theorem beBytesToNat_replicate_zero (k : Nat) (l : List Nat) :
    beBytesToNat (List.replicate k 0 ++ l) = beBytesToNat l := by
  induction k with
  | zero => simp
  | succ n ih =>
    rw [List.replicate_succ, List.cons_append]
    simpa [beBytesToNat] using ih

/-- Parsing the minimal big-endian encoding gives back the integer. -/
theorem natToMinBEAux_eval : ∀ fuel n, n ≤ fuel → beBytesToNat (natToMinBEAux fuel n) = n := by
  intro fuel
  induction fuel with
  | zero =>
    intro n h
    have : n = 0 := Nat.le_zero.mp h
    simp [natToMinBEAux, beBytesToNat, this]
  | succ f ih =>
    intro n h
    by_cases h0 : n = 0
    · simp [natToMinBEAux, h0, beBytesToNat]
    · have hdiv : n / 256 ≤ f := by
        have : n / 256 < n := Nat.div_lt_self (Nat.pos_of_ne_zero h0) (by decide)
        omega
      simp only [natToMinBEAux, h0, if_false]
      rw [beBytesToNat_append_singleton, ih _ hdiv]
      omega

/-- The minimal big-endian encoding of `n < 256^k` has at most `k` digits. -/
theorem natToMinBEAux_length :
    ∀ fuel n k, n ≤ fuel → n < 256 ^ k → (natToMinBEAux fuel n).length ≤ k := by
  intro fuel
  induction fuel with
  | zero => intro n k _ _; simp [natToMinBEAux]
  | succ f ih =>
    intro n k h hk
    by_cases h0 : n = 0
    · simp [natToMinBEAux, h0]
    · cases k with
      | zero =>
        exfalso
        have := Nat.pos_of_ne_zero h0
        simp [pow_zero] at hk
        omega
      | succ k2 =>
        have hdiv : n / 256 ≤ f := by
          have : n / 256 < n := Nat.div_lt_self (Nat.pos_of_ne_zero h0) (by decide)
          omega
        have hk2 : n / 256 < 256 ^ k2 := by
          apply Nat.div_lt_of_lt_mul
          rw [Nat.mul_comm]
          simpa [pow_succ] using hk
        have := ih (n / 256) k2 hdiv hk2
        simp only [natToMinBEAux, h0, if_false, List.length_append, List.length_cons,
          List.length_nil]
        omega

/-- Round trip through `big.Int.Bytes` and `big.Int.SetBytes`. -/
theorem beBytesToNat_natToMinBE (n : Nat) : beBytesToNat (natToMinBE n) = n :=
  natToMinBEAux_eval n n le_rfl

/-- Length bound for the minimal big-endian encoding. -/
theorem natToMinBE_length_le (n k : Nat) (h : n < 256 ^ k) : (natToMinBE n).length ≤ k :=
  natToMinBEAux_length n n k le_rfl h

/-- For values below `256^32` the signature-scalar encoding is exactly the
left-zero-padded minimal big-endian encoding. -/
theorem sEncode_eq (s : Nat) (hs : s < 256 ^ 32) :
    sEncode s = List.replicate (32 - (natToMinBE s).length) 0 ++ natToMinBE s := by
  have hlen : (natToMinBE s).length ≤ 32 := natToMinBE_length_le s 32 hs
  unfold sEncode
  simp only [sizeFr]
  by_cases hl : (natToMinBE s).length < 32
  · rw [if_pos hl]
    apply List.take_of_length_le
    simp
    omega
  · rw [if_neg hl]
    have h32 : (natToMinBE s).length = 32 := le_antisymm hlen (not_lt.mp hl)
    rw [List.take_of_length_le (by omega), show 32 - (natToMinBE s).length = 0 by omega,
      List.replicate_zero, List.nil_append]

/-- The encoded signature scalar is 32 bytes long. -/
theorem sEncode_length (s : Nat) (hs : s < 256 ^ 32) : (sEncode s).length = 32 := by
  rw [sEncode_eq s hs]
  have := natToMinBE_length_le s 32 hs
  simp
  omega

/-- Parsing the encoded signature scalar returns the value. -/
theorem beBytesToNat_sEncode (s : Nat) (hs : s < 256 ^ 32) : beBytesToNat (sEncode s) = s := by
  rw [sEncode_eq s hs, beBytesToNat_replicate_zero, beBytesToNat_natToMinBE]

/-- The public key cached in a generated private key is the stored
scalar (parsed big-endian) times the base point. -/
theorem generateKey_pub_eq (C : CurveModel) (blake : List Nat → List Nat) (seed : List Nat) :
    ((GenerateKey C blake seed).2).pubKey.A
      = C.smul (beBytesToNat ((GenerateKey C blake seed).2.scalar)) C.base := by
  simp only [GenerateKey]

/-- The demo curve satisfies all the collaborator laws. -/
theorem demoCurve_laws : CurveLaws demoCurve := by
  refine ⟨?_, ?_, ?_, ?_, ?_, ?_, ?_, ?_⟩
  · intro a b p
    show ((a + b) * p) % 15 = ((a * p) % 15 + (b * p) % 15) % 15
    rw [Nat.add_mul, Nat.add_mod]
  · intro a b p
    show (a * b * p) % 15 = (a * ((b * p) % 15)) % 15
    conv_lhs => rw [Nat.mul_assoc]
    rw [Nat.mul_mod, Nat.mul_mod a ((b * p) % 15), Nat.mod_mod_of_dvd _ dvd_rfl]
  · intro a
    show ((a % 15) * 1) % 15 = (a * 1) % 15
    simp [Nat.mod_mod_of_dvd _ dvd_rfl]
  · intro k; rfl
  · intro p
    show (p == p) = true
    simp
  · intro p q
    show (p + q) % 15 = (q + p) % 15
    rw [Nat.add_comm]
  · decide
  · decide

/-- C8: GenerateKey is deterministic: in the embedding every quantity is
derived from the seed through the fixed blake2b-512 hash — the source
draws no ambient randomness — so two invocations on equal seeds yield
identical public keys and identical private-key bytes. -/
theorem generateKey_deterministic (C : CurveModel) (blake : List Nat → List Nat)
    (seed1 seed2 : List Nat) (h : seed1 = seed2) :
    (GenerateKey C blake seed1).1 = (GenerateKey C blake seed2).1 ∧
    (GenerateKey C blake seed1).2.scalar = (GenerateKey C blake seed2).2.scalar ∧
    (GenerateKey C blake seed1).2.randSrc = (GenerateKey C blake seed2).2.randSrc ∧
    (GenerateKey C blake seed1).2.pubKey = (GenerateKey C blake seed2).2.pubKey := by
  subst h
  exact ⟨rfl, rfl, rfl, rfl⟩

/-- Witness for C8 at the all-zero seed. -/
theorem generateKey_deterministic_witness :
    (GenerateKey demoCurve blake0 seed0).1 = (GenerateKey demoCurve blake0 seed0).1 ∧
    (GenerateKey demoCurve blake0 seed0).2.scalar = (GenerateKey demoCurve blake0 seed0).2.scalar ∧
    (GenerateKey demoCurve blake0 seed0).2.randSrc = (GenerateKey demoCurve blake0 seed0).2.randSrc ∧
    (GenerateKey demoCurve blake0 seed0).2.pubKey = (GenerateKey demoCurve blake0 seed0).2.pubKey :=
  generateKey_deterministic demoCurve blake0 seed0 seed0 rfl

/-- C9 counterexample: the private-key serialization size constant is
`3*sizeFr + 32 = 128`, not 96. -/
theorem sizePrivateKey_ne_96 : sizePrivateKey ≠ 96 := by decide

/-- C9 amended: a PrivateKey serializes to 128 bytes — the 32-byte
scalar, the 32-byte auxiliary seed, and the embedded 64-byte public
key. -/
theorem sizePrivateKey_val : sizePrivateKey = 128 ∧ sizePrivateKey = sizeFr + 32 + sizePublicKey := by
  decide

/-- C2: the auxiliary seed is indeed the upper 32 digest bytes, but the
stored scalar is not the byte-reversal of the clamped lower 32 bytes:
the reversal loop starts at `j = sizeFr`, reversing `h[0..32]` (33
bytes), so the scalar is `[h[32], clamped h[31], h[30], …, h[1]]` —
it picks up the unclamped upper-half byte `h[32]` and drops the clamped
byte `h[0]`.  Shown on the digest `0,1,…,63`. -/
theorem generateKey_scalar_vs_spec :
    (GenerateKey demoCurve blake0 seed0).2.randSrc = ((blake0 seed0).drop 32).take 32 ∧
    (GenerateKey demoCurve blake0 seed0).2.scalar ≠ scalarPerSpec (blake0 seed0) ∧
    (GenerateKey demoCurve blake0 seed0).2.scalar.getD 0 0 = 32 ∧
    (scalarPerSpec (blake0 seed0)).getD 0 0 = 95 := by
  refine ⟨rfl, ?_, by decide, by decide⟩
  decide

/-- C3: on the digest `0,1,…,63` the generated scalar violates the
clamping pattern: its lowest-order byte is `h[1] = 1` (low three bits
not clear) and its highest-order byte is `h[32] = 32` (bit 6 not set),
because the reversal loop reverses 33 bytes instead of 32. -/
theorem generateKey_clamp_violated :
    ((GenerateKey demoCurve blake0 seed0).2.scalar.getD 31 0) &&& 0x07 ≠ 0 ∧
    ((GenerateKey demoCurve blake0 seed0).2.scalar.getD 0 0) &&& 0x40 = 0 := by
  exact ⟨by decide, by decide⟩

/-- Inversion of a successful `Sign`: the on-curve check and the hash
write both went through, and the returned signature is `R = r·Base`
with `S` the encoded value `(c·x + r) mod Order`. -/
theorem sign_success_inv (C : CurveModel) (blake : List Nat → List Nat) (hF : HashFn)
    (priv : PrivateKey C) (msg : List Nat) (sig : Signature C)
    (h : Sign C blake hF priv msg = (sig, none)) :
    C.isOnCurve (C.smul (signNonce blake C priv msg) C.base) = true ∧
    hF.writeErr (challengeData C (C.smul (signNonce blake C priv msg) C.base) priv.pubKey.A msg)
      = none ∧
    sig.R = C.smul (signNonce blake C priv msg) C.base ∧
    sig.S = sEncode ((beBytesToNat (hF.sum (challengeData C
          (C.smul (signNonce blake C priv msg) C.base) priv.pubKey.A msg))
        * beBytesToNat priv.scalar + signNonce blake C priv msg) % C.order) := by
  cases h1 : C.isOnCurve (C.smul (signNonce blake C priv msg) C.base) with
  | false => simp [Sign, h1] at h
  | true =>
    cases h2 : hF.writeErr (challengeData C (C.smul (signNonce blake C priv msg) C.base)
        priv.pubKey.A msg) with
    | some e => simp [Sign, h1, h2] at h
    | none =>
      simp only [Sign, h1, h2, if_true, Prod.mk.injEq, and_true] at h
      exact ⟨rfl, rfl, by rw [← h], by rw [← h]⟩

/-- When all point checks pass and the hash write succeeds, `Verify`
returns the coordinate-wise comparison of its two sides and no error. -/
theorem verify_ok (C : CurveModel) (hF : HashFn) (sig : Signature C) (msg : List Nat)
    (pub : PublicKey C) (c : Nat)
    (hc : beBytesToNat (hF.sum (challengeData C sig.R pub.A msg)) = c)
    (h1 : C.isOnCurve pub.A = true)
    (h2 : hF.writeErr (challengeData C sig.R pub.A msg) = none)
    (h3 : C.isOnCurve (verifyLhs C sig) = true)
    (h4 : C.isOnCurve (verifyRhs C pub sig c) = true) :
    Verify C hF sig msg pub
      = (C.pointEq (verifyLhs C sig) (verifyRhs C pub sig c), none) := by
  subst hc
  cases hpe : C.pointEq (verifyLhs C sig)
      (verifyRhs C pub sig (beBytesToNat (hF.sum (challengeData C sig.R pub.A msg)))) with
  | false => simp [Verify, h1, h2, h3, h4, hpe]
  | true => simp [Verify, h1, h2, h3, h4, hpe]

/-- C6: `Verify` answers an "invalid point" error when the public key
point is off-curve, and likewise when `lhs` or `rhs` fails the on-curve
check; a well-formed signature whose equation does not hold yields the
boolean `false` together with no error. -/
theorem verify_error_cases (C : CurveModel) (hF : HashFn) (sig : Signature C) (msg : List Nat)
    (pub : PublicKey C) :
    (C.isOnCurve pub.A = false → Verify C hF sig msg pub = (false, some errNotOnCurve)) ∧
    (C.isOnCurve pub.A = true →
      hF.writeErr (challengeData C sig.R pub.A msg) = none →
      C.isOnCurve (verifyLhs C sig) = false →
      Verify C hF sig msg pub = (false, some errNotOnCurve)) ∧
    (C.isOnCurve pub.A = true →
      hF.writeErr (challengeData C sig.R pub.A msg) = none →
      C.isOnCurve (verifyLhs C sig) = true →
      C.isOnCurve (verifyRhs C pub sig
        (beBytesToNat (hF.sum (challengeData C sig.R pub.A msg)))) = false →
      Verify C hF sig msg pub = (false, some errNotOnCurve)) ∧
    (C.isOnCurve pub.A = true →
      hF.writeErr (challengeData C sig.R pub.A msg) = none →
      C.isOnCurve (verifyLhs C sig) = true →
      C.isOnCurve (verifyRhs C pub sig
        (beBytesToNat (hF.sum (challengeData C sig.R pub.A msg)))) = true →
      C.pointEq (verifyLhs C sig)
        (verifyRhs C pub sig (beBytesToNat (hF.sum (challengeData C sig.R pub.A msg)))) = false →
      Verify C hF sig msg pub = (false, none)) := by
  refine ⟨?_, ?_, ?_, ?_⟩
  · intro h1
    simp [Verify, h1]
  · intro h1 h2 h3
    simp [Verify, h1, h2, h3]
  · intro h1 h2 h3 h4
    simp [Verify, h1, h2, h3, h4]
  · intro h1 h2 h3 h4 h5
    simp [Verify, h1, h2, h3, h4, h5]

/-- Witness for C6: each branch exercised on a small concrete curve
model — public key off-curve, `lhs` off-curve, `rhs` off-curve, and a
well-formed but non-verifying signature. -/
theorem verify_error_cases_witness :
    Verify demoCurveOff hF0 (zeroSignature demoCurveOff) msg0 ⟨(0 : Nat)⟩
      = (false, some errNotOnCurve) ∧
    Verify demoCurveMix hF0 ⟨(3 : Nat), [5]⟩ msg0 ⟨(2 : Nat)⟩ = (false, some errNotOnCurve) ∧
    Verify demoCurveMix2 hF0 ⟨(4 : Nat), [5]⟩ msg0 ⟨(2 : Nat)⟩ = (false, some errNotOnCurve) ∧
    Verify demoCurve hF0 ⟨(3 : Nat), [5]⟩ msg0 ⟨(2 : Nat)⟩ = (false, none) :=
  ⟨(verify_error_cases demoCurveOff hF0 (zeroSignature demoCurveOff) msg0 ⟨0⟩).1 rfl,
   (verify_error_cases demoCurveMix hF0 ⟨3, [5]⟩ msg0 ⟨2⟩).2.1 rfl rfl rfl,
   (verify_error_cases demoCurveMix2 hF0 ⟨4, [5]⟩ msg0 ⟨2⟩).2.2.1 rfl rfl rfl rfl,
   (verify_error_cases demoCurve hF0 ⟨3, [5]⟩ msg0 ⟨2⟩).2.2.2 rfl rfl rfl rfl rfl⟩

/-- C10: whenever `Verify` reports an error its boolean result is
`false` — no code path returns `true` together with a non-nil error. -/
theorem verify_no_true_with_error (C : CurveModel) (hF : HashFn) (sig : Signature C)
    (msg : List Nat) (pub : PublicKey C)
    (h : (Verify C hF sig msg pub).2 ≠ none) :
    (Verify C hF sig msg pub).1 = false := by
  cases h1 : C.isOnCurve pub.A with
  | false => simp [Verify, h1]
  | true =>
    cases h2 : hF.writeErr (challengeData C sig.R pub.A msg) with
    | some e => simp [Verify, h1, h2]
    | none =>
      cases h3 : C.isOnCurve (verifyLhs C sig) with
      | false => simp [Verify, h1, h2, h3]
      | true =>
        cases h4 : C.isOnCurve (verifyRhs C pub sig
            (beBytesToNat (hF.sum (challengeData C sig.R pub.A msg)))) with
        | false => simp [Verify, h1, h2, h3, h4]
        | true =>
          cases h5 : C.pointEq (verifyLhs C sig)
              (verifyRhs C pub sig (beBytesToNat (hF.sum (challengeData C sig.R pub.A msg)))) with
          | false => simp [Verify, h1, h2, h3, h4, h5]
          | true => simp [Verify, h1, h2, h3, h4, h5] at h

/-- Witness for C10 on a curve model whose on-curve test fails. -/
theorem verify_no_true_with_error_witness :
    (Verify demoCurveOff hF0 ⟨(1 : Nat), [9]⟩ msg0 ⟨(0 : Nat)⟩).1 = false :=
  verify_no_true_with_error demoCurveOff hF0 ⟨1, [9]⟩ msg0 ⟨0⟩ (by decide)

/-- C7: a failing `Sign` — hash write failure or commitment point
off-curve — returns the zero-value signature together with that error,
never a partially filled signature. -/
theorem sign_failure_zero (C : CurveModel) (blake : List Nat → List Nat) (hF : HashFn)
    (priv : PrivateKey C) (msg : List Nat) (sig : Signature C) (e : String)
    (h : Sign C blake hF priv msg = (sig, some e)) :
    sig = zeroSignature C ∧
      ((C.isOnCurve (C.smul (signNonce blake C priv msg) C.base) = false ∧ e = errNotOnCurve) ∨
        hF.writeErr (challengeData C (C.smul (signNonce blake C priv msg) C.base)
          priv.pubKey.A msg) = some e) := by
  cases h1 : C.isOnCurve (C.smul (signNonce blake C priv msg) C.base) with
  | false =>
    simp only [Sign, h1, Bool.false_eq_true, if_false, Prod.mk.injEq] at h
    exact ⟨h.1.symm, Or.inl ⟨rfl, (Option.some.injEq _ _ ▸ h.2).symm⟩⟩
  | true =>
    cases h2 : hF.writeErr (challengeData C (C.smul (signNonce blake C priv msg) C.base)
        priv.pubKey.A msg) with
    | some e2 =>
      simp only [Sign, h1, if_true, h2, Prod.mk.injEq] at h
      obtain ⟨ha, hb⟩ := h
      exact ⟨ha.symm, Or.inr hb⟩
    | none => simp [Sign, h1, h2] at h

/-- Witness for C7: on a curve model whose on-curve test fails, `Sign`
aborts with the "not on curve" error and the zero signature. -/
theorem sign_failure_zero_witness :
    zeroSignature demoCurveOff = zeroSignature demoCurveOff ∧
      ((demoCurveOff.isOnCurve (demoCurveOff.smul
          (signNonce blake0 demoCurveOff (GenerateKey demoCurveOff blake0 seed0).2 msg0)
          demoCurveOff.base) = false ∧ errNotOnCurve = errNotOnCurve) ∨
        hF0.writeErr (challengeData demoCurveOff
          (demoCurveOff.smul
            (signNonce blake0 demoCurveOff (GenerateKey demoCurveOff blake0 seed0).2 msg0)
            demoCurveOff.base)
          (GenerateKey demoCurveOff blake0 seed0).2.pubKey.A msg0) = some errNotOnCurve) :=
  sign_failure_zero demoCurveOff blake0 hF0 (GenerateKey demoCurveOff blake0 seed0).2 msg0
    (zeroSignature demoCurveOff) errNotOnCurve rfl

/-- C4: the verifier's left side is `cofactor·(s·Base)` with `s` the
non-negative big-endian integer of `sig.S`; its right side equals
`cofactor·(R + c·A)` with `c` the non-negative big-endian integer of
the challenge digest (the source computes `c·A + R`, equal by
commutativity of point addition); and when every point check passes
`Verify` returns exactly the comparison of these two points. -/
theorem verify_lhs_rhs (C : CurveModel) (hcomm : ∀ p q, C.add p q = C.add q p)
    (hF : HashFn) (sig : Signature C) (msg : List Nat) (pub : PublicKey C) :
    verifyLhs C sig = C.smul C.cofactor (C.smul (beBytesToNat sig.S) C.base) ∧
    verifyRhs C pub sig (beBytesToNat (hF.sum (challengeData C sig.R pub.A msg)))
      = C.smul C.cofactor (C.add sig.R
          (C.smul (beBytesToNat (hF.sum (challengeData C sig.R pub.A msg))) pub.A)) ∧
    (C.isOnCurve pub.A = true →
      hF.writeErr (challengeData C sig.R pub.A msg) = none →
      C.isOnCurve (verifyLhs C sig) = true →
      C.isOnCurve (verifyRhs C pub sig
        (beBytesToNat (hF.sum (challengeData C sig.R pub.A msg)))) = true →
      Verify C hF sig msg pub
        = (C.pointEq (verifyLhs C sig)
            (verifyRhs C pub sig (beBytesToNat (hF.sum (challengeData C sig.R pub.A msg)))),
           none)) := by
  refine ⟨rfl, ?_, fun h1 h2 h3 h4 => verify_ok C hF sig msg pub _ rfl h1 h2 h3 h4⟩
  rw [verifyRhs, hcomm]

/-- Witness for C4 on the demo curve with a concrete signature. -/
theorem verify_lhs_rhs_witness :
    Verify demoCurve hF0 ⟨(3 : Nat), [5]⟩ msg0 ⟨(2 : Nat)⟩
      = (demoCurve.pointEq (verifyLhs demoCurve ⟨3, [5]⟩)
          (verifyRhs demoCurve ⟨2⟩ ⟨3, [5]⟩
            (beBytesToNat (hF0.sum (challengeData demoCurve
              (Signature.R (C := demoCurve) ⟨3, [5]⟩)
              (PublicKey.A (C := demoCurve) ⟨2⟩) msg0)))), none) :=
  (verify_lhs_rhs demoCurve demoCurve_laws.add_comm hF0 ⟨3, [5]⟩ msg0 ⟨2⟩).2.2 rfl rfl rfl rfl

/-- C5: on success, the returned scalar `S` is
`(r + c·secret_scalar) mod group_order` — `r` the blinding scalar, `c`
the challenge digest parsed big-endian — encoded as exactly 32
big-endian bytes, left-padded with zeros when the minimal encoding is
shorter (the source computes `c·x + r`; addition is commutative). -/
theorem sign_s_encoding (C : CurveModel) (blake : List Nat → List Nat) (hF : HashFn)
    (priv : PrivateKey C) (msg : List Nat) (sig : Signature C)
    (hpos : 0 < C.order) (hle : C.order ≤ 256 ^ 32)
    (h : Sign C blake hF priv msg = (sig, none)) :
    sig.S = List.replicate
        (32 - (natToMinBE ((signNonce blake C priv msg +
          beBytesToNat (hF.sum (challengeData C (C.smul (signNonce blake C priv msg) C.base)
            priv.pubKey.A msg)) * beBytesToNat priv.scalar) % C.order)).length) 0
      ++ natToMinBE ((signNonce blake C priv msg +
          beBytesToNat (hF.sum (challengeData C (C.smul (signNonce blake C priv msg) C.base)
            priv.pubKey.A msg)) * beBytesToNat priv.scalar) % C.order) ∧
    sig.S.length = 32 ∧
    beBytesToNat sig.S = (signNonce blake C priv msg +
        beBytesToNat (hF.sum (challengeData C (C.smul (signNonce blake C priv msg) C.base)
          priv.pubKey.A msg)) * beBytesToNat priv.scalar) % C.order := by
  obtain ⟨h1, h2, hR, hS⟩ := sign_success_inv C blake hF priv msg sig h
  have key : (beBytesToNat (hF.sum (challengeData C (C.smul (signNonce blake C priv msg) C.base)
          priv.pubKey.A msg)) * beBytesToNat priv.scalar + signNonce blake C priv msg) % C.order
      = (signNonce blake C priv msg +
          beBytesToNat (hF.sum (challengeData C (C.smul (signNonce blake C priv msg) C.base)
            priv.pubKey.A msg)) * beBytesToNat priv.scalar) % C.order := by
    rw [Nat.add_comm]
  refine ⟨?_, ?_, ?_⟩
  · rw [hS, key]
    exact sEncode_eq _ (lt_of_lt_of_le (Nat.mod_lt _ hpos) hle)
  · rw [hS]
    exact sEncode_length _ (lt_of_lt_of_le (Nat.mod_lt _ hpos) hle)
  · rw [hS, key]
    exact beBytesToNat_sEncode _ (lt_of_lt_of_le (Nat.mod_lt _ hpos) hle)

/-- Witness for C5: the scalar encoding law evaluated on the demo
curve, the all-zero seed and a concrete message. -/
theorem sign_s_encoding_witness :
    (let priv := (GenerateKey demoCurve blake0 seed0).2
     let sig := (Sign demoCurve blake0 hF0 priv msg0).1
     let r := signNonce blake0 demoCurve priv msg0
     let c := beBytesToNat (hF0.sum (challengeData demoCurve (demoCurve.smul r demoCurve.base)
       priv.pubKey.A msg0))
     let x := beBytesToNat priv.scalar
     sig.S = List.replicate (32 - (natToMinBE ((r + c * x) % demoCurve.order)).length) 0
         ++ natToMinBE ((r + c * x) % demoCurve.order) ∧
     sig.S.length = 32 ∧
     beBytesToNat sig.S = (r + c * x) % demoCurve.order) :=
  sign_s_encoding demoCurve blake0 hF0 (GenerateKey demoCurve blake0 seed0).2 msg0
    (Sign demoCurve blake0 hF0 (GenerateKey demoCurve blake0 seed0).2 msg0).1
    (by decide) (by decide) rfl

/-- Signatures produced by `Sign` verify against the signer's public
key whenever the cached public key point is the stored scalar times the
base point (as `GenerateKey` guarantees) and the curve collaborator
satisfies its laws. -/
theorem sign_verify_of_consistent (C : CurveModel) (L : CurveLaws C)
    (blake : List Nat → List Nat) (hF : HashFn) (priv : PrivateKey C) (msg : List Nat)
    (sig : Signature C)
    (hA : priv.pubKey.A = C.smul (beBytesToNat priv.scalar) C.base)
    (h : Sign C blake hF priv msg = (sig, none)) :
    Verify C hF sig msg priv.pubKey = (true, none) := by
  obtain ⟨h1, h2, hR, hS⟩ := sign_success_inv C blake hF priv msg sig h
  set r := signNonce blake C priv msg with hr
  set x := beBytesToNat priv.scalar with hx
  set c := beBytesToNat (hF.sum (challengeData C (C.smul r C.base) priv.pubKey.A msg)) with hc
  have hs32 : (c * x + r) % C.order < 256 ^ 32 :=
    lt_of_lt_of_le (Nat.mod_lt _ L.order_pos) L.order_le
  have hon : C.isOnCurve priv.pubKey.A = true := by
    rw [hA]
    exact L.onCurve_smul_base x
  have hcR : beBytesToNat (hF.sum (challengeData C sig.R priv.pubKey.A msg)) = c := by
    rw [hR, hc]
  have h2R : hF.writeErr (challengeData C sig.R priv.pubKey.A msg) = none := by
    rw [hR]
    exact h2
  have hlhs_eq : verifyLhs C sig = C.smul (C.cofactor * (c * x + r)) C.base := by
    simp only [verifyLhs]
    rw [hS, beBytesToNat_sEncode _ hs32, L.smul_mod_base, ← L.smul_mul]
  have hrhs_eq : verifyRhs C priv.pubKey sig c = C.smul (C.cofactor * (c * x + r)) C.base := by
    simp only [verifyRhs]
    rw [hR, hA, ← L.smul_mul, ← L.smul_add, ← L.smul_mul]
  have h3 : C.isOnCurve (verifyLhs C sig) = true := by
    rw [hlhs_eq]
    exact L.onCurve_smul_base _
  have h4 : C.isOnCurve (verifyRhs C priv.pubKey sig c) = true := by
    rw [hrhs_eq]
    exact L.onCurve_smul_base _
  rw [verify_ok C hF sig msg priv.pubKey c hcR hon h2R h3 h4, hlhs_eq, hrhs_eq, L.pointEq_refl]

/-- C1: for every private key produced by `GenerateKey` and every
message, if `Sign` succeeds then `Verify` of the resulting signature
against the message and the key's public key returns `true` with no
error (assuming the curve collaborator satisfies its laws). -/
theorem eddsa_sign_verify (C : CurveModel) (L : CurveLaws C) (blake : List Nat → List Nat)
    (hF : HashFn) (seed msg : List Nat) (sig : Signature C)
    (hsign : Sign C blake hF (GenerateKey C blake seed).2 msg = (sig, none)) :
    Verify C hF sig msg ((GenerateKey C blake seed).2.pubKey) = (true, none) :=
  sign_verify_of_consistent C L blake hF (GenerateKey C blake seed).2 msg sig
    (generateKey_pub_eq C blake seed) hsign

/-- Witness for C1: a signature produced on the demo curve from the
all-zero seed verifies. -/
theorem eddsa_sign_verify_witness :
    Verify demoCurve hF0
      (Sign demoCurve blake0 hF0 (GenerateKey demoCurve blake0 seed0).2 msg0).1 msg0
      ((GenerateKey demoCurve blake0 seed0).2.pubKey) = (true, none) :=
  eddsa_sign_verify demoCurve demoCurve_laws blake0 hF0 seed0 msg0
    (Sign demoCurve blake0 hF0 (GenerateKey demoCurve blake0 seed0).2 msg0).1 rfl

end Eddsa
